import Mathlib

/-!
# Verification of the pudzu repository against its specification

Shallow embedding of the relevant parts of `src/utils.py` and
`src/dataviz/neighbours.py`, together with theorems settling the
specification's claims about them.  Definitions come first, theorems follow.
-/

namespace Pudzu

/-! ## Definitions: `with_retries` (src/utils.py, lines 132-147)

The wrapped function is modelled by the stream `results : ℕ → Outcome α ε`
giving the outcome of its `i`-th call (`success v` = it returns `v`,
`exc e` = it raises exception `e`).  Wall-clock time is modelled by
`nowAfter i` (the value of `datetime.datetime.now()` at the check made
after the `i`-th failed call) and `dtMax` (the value `datetime.datetime.max`),
with the real-world invariant `nowAfter i ≤ dtMax`.

The Python loop is
```
for i in itertools.count() if max_retries is None else range(max_retries):
    try:
        return fn(*args, **kwargs)
    except exceptions:
        if i + 1 == max_retries: raise
        elif datetime.datetime.now() > datetime.datetime.max: raise
        else: sleep(interval)
```
Note that the second guard compares `now()` with `datetime.datetime.max`
(not with the local `end_time` computed from `max_duration`), exactly as the
source does.  The embedding is step-indexed by `fuel`: `none` means the loop
is still running after `fuel` iterations (possible only in the unbounded
`max_retries=None` case, where Python may loop forever).
-/

inductive Outcome (α ε : Type) where
  | success : α → Outcome α ε
  | exc : ε → Outcome α ε
  deriving DecidableEq, Repr

inductive RetryResult (α ε : Type) where
  /-- the wrapper returned this value -/
  | value : α → RetryResult α ε
  /-- the wrapper re-raised this exception -/
  | exn : ε → RetryResult α ε
  /-- the `for` loop was exhausted without returning: Python returns `None` -/
  | noneReturn : RetryResult α ε
  deriving DecidableEq, Repr

/-- `loopDone maxRetries i`: whether the Python `for` loop header stops before
iteration `i` (`range(m)` stops at `i = m`; `itertools.count()` never stops). -/
def loopDone (maxRetries : Option ℕ) (i : ℕ) : Bool :=
  match maxRetries with
  | none => false
  | some m => m ≤ i

/-- One run of the retry loop of `with_retries`, starting at iteration `i`
with `fuel` iterations of budget; the second component of the result counts
the total number of calls made to the wrapped function. -/
def retryFrom (results : ℕ → Outcome α ε) (maxRetries : Option ℕ)
    (nowAfter : ℕ → ℕ) (dtMax : ℕ) : ℕ → ℕ → Option (RetryResult α ε × ℕ)
  | _, 0 => none
  | i, fuel + 1 =>
    if loopDone maxRetries i then some (.noneReturn, i)
    else
      match results i with
      | .success v => some (.value v, i + 1)
      | .exc e =>
        if maxRetries = some (i + 1) then some (.exn e, i + 1)
        else if nowAfter i > dtMax then some (.exn e, i + 1)
        else retryFrom results maxRetries nowAfter dtMax (i + 1) fuel

/-- The wrapper produced by `with_retries(fn, max_retries, max_duration, ...)`.
`_end_time` mirrors the local variable `end_time` of the source, which is
computed from `max_duration` but never read again (the guard inside the loop
compares against `datetime.datetime.max` instead). -/
def withRetriesRun (results : ℕ → Outcome α ε) (maxRetries : Option ℕ)
    (maxDuration : Option ℕ) (now0 : ℕ) (nowAfter : ℕ → ℕ) (dtMax : ℕ)
    (fuel : ℕ) : Option (RetryResult α ε × ℕ) :=
  let _end_time : ℕ := match maxDuration with
    | none => dtMax
    | some d => now0 + d
  retryFrom results maxRetries nowAfter dtMax 0 fuel

/-! ## Definitions: `country_borders` (src/dataviz/neighbours.py, lines 27-41)

The map is an RGBA pixel array (`maparray`).  `mask_by_color` builds a
boolean mask by conjoining per-channel equality.  `country_borders` masks the
target country's color, builds the distance-transform input mask
(target OR background OR ignore-color), reads the propagated colors through
the index arrays returned by `scipy.ndimage.distance_transform_edt`, and
zeroes every pixel outside the target mask by multiplying each channel with
the mask.  The library's index output is modelled by the oracle parameter
`edt`; theorems that depend on its documented behaviour hypothesise the
contract `edtSpec` for it on the relevant mask, and theorems about inputs on
which that contract is unsatisfiable (no mask-false pixel anywhere) quantify
over an arbitrary in-bounds `edt`. -/

/-- An RGBA pixel (a `uint8` 4-tuple in the source; the only arithmetic is
multiplication by 0 or 1, which cannot overflow, so naturals are used). -/
structure Color where
  c0 : ℕ
  c1 : ℕ
  c2 : ℕ
  c3 : ℕ
  deriving DecidableEq, Repr

/-- The all-zero (transparent) pixel produced by masking. -/
def zeroColor : Color := ⟨0, 0, 0, 0⟩

/-- An `h × w` RGBA pixel array (`maparray` in the source). -/
abbrev Raster (h w : ℕ) := Fin h → Fin w → Color

/-- A pixel coordinate (row, column). -/
abbrev Pos (h w : ℕ) := Fin h × Fin w

/-- `mask_by_color(nparray, color)`: true exactly at the pixels whose four
channels all equal `color`'s (the source folds `mask & (channel == c)` over
the channels). -/
def mask_by_color (img : Raster h w) (c : Color) (p : Pos h w) : Bool :=
  ((img p.1 p.2).c0 == c.c0) && ((img p.1 p.2).c1 == c.c1) &&
    ((img p.1 p.2).c2 == c.c2) && ((img p.1 p.2).c3 == c.c3)

/-- `edtmask = cmask | mask_by_color(maparray, bgcolor) |
mask_by_color(maparray, IGNORECOLOR)`. -/
def edtmaskOf (img : Raster h w) (tc bg ig : Color) (p : Pos h w) : Bool :=
  mask_by_color img tc p || mask_by_color img bg p || mask_by_color img ig p

/-- Squared Euclidean distance between two pixel coordinates. -/
def dist2 (p q : Pos h w) : ℤ :=
  ((p.1 : ℤ) - (q.1 : ℤ)) ^ 2 + ((p.2 : ℤ) - (q.2 : ℤ)) ^ 2

/-- Documented contract of the index arrays returned by
`scipy.ndimage.distance_transform_edt(mask, return_indices=True)`: every
mask-false pixel maps to itself (distance 0), and every mask-true pixel maps
to a nearest mask-false pixel.  Tie-breaking is implementation-defined, so
theorems quantify over every `ind` satisfying this contract; on a mask with
no false pixel the contract is unsatisfiable (the library's output there is
undocumented). -/
def edtSpec (mask : Pos h w → Bool) (ind : Pos h w → Pos h w) : Prop :=
  ∀ p, (mask p = false → ind p = p) ∧
    (mask p = true →
      mask (ind p) = false ∧ ∀ q, mask q = false → dist2 p (ind p) ≤ dist2 p q)

instance (mask : Pos h w → Bool) (ind : Pos h w → Pos h w) :
    Decidable (edtSpec mask ind) := by
  unfold edtSpec
  infer_instance

/-- Multiply every channel of a pixel by a boolean
(`edtvals[...,i] *= cmask` at one pixel, all four channels). -/
def Color.mulBool (c : Color) (b : Bool) : Color :=
  ⟨c.c0 * b.toNat, c.c1 * b.toNat, c.c2 * b.toNat, c.c3 * b.toNat⟩

/-- `edtvals = maparray[indx,indy]`: the propagated-color raster (a fresh
array produced by fancy indexing). -/
def edtvalsOf (img : Raster h w) (ind : Pos h w → Pos h w) : Raster h w :=
  fun y x => img (ind (y, x)).1 (ind (y, x)).2

/-- The raster returned by `country_borders` after the channel-masking loop:
the propagated color at target-mask pixels, zero elsewhere. -/
def borderOut (img : Raster h w) (tc : Color) (ind : Pos h w → Pos h w) :
    Raster h w :=
  fun y x => (edtvalsOf img ind y x).mulBool (mask_by_color img tc (y, x))

/-- The two exceptions `country_borders(country)` can raise:
`unknownRegion` is the `ValueError` from `names.index(country)` (the spec's
`UnknownRegionError`), `paletteIndex` the `IndexError` from `palette[i]`. -/
inductive RegionError where
  | unknownRegion
  | paletteIndex
  deriving DecidableEq, Repr

/-- `country_borders(country)`: resolve the country to its palette color,
then mask, propagate and re-mask.  `bg` and `ig` reach the output only
through the distance-transform input mask handed to the oracle `edt`. -/
def country_borders (names : List String) (palette : List Color)
    (bg ig : Color) (img : Raster h w)
    (edt : (Pos h w → Bool) → Pos h w → Pos h w) (country : String) :
    Except RegionError (Raster h w) :=
  match names.indexOf? country with
  | none => .error .unknownRegion
  | some i =>
    match palette[i]? with
    | none => .error .paletteIndex
    | some tc => .ok (borderOut img tc (edt (edtmaskOf img tc bg ig)))

/-! Concrete pixel values used by the witnesses and the C2 example. -/

def red : Color := ⟨255, 0, 0, 255⟩

def green : Color := ⟨0, 255, 0, 255⟩

def blue : Color := ⟨0, 0, 255, 255⟩

def grey : Color := ⟨128, 128, 128, 255⟩

/-- A trivial oracle for cases where the distance transform's output is
irrelevant. -/
def idEdt (h w : ℕ) : (Pos h w → Bool) → Pos h w → Pos h w := fun _ p => p

/-- The 1×3 witness raster for C1: target region, second region, background. -/
def wit1Img : Raster 1 3 := fun _ x =>
  if x.val = 0 then red else if x.val = 1 then green else blue

/-- A distance-transform index choice for `wit1Img`'s mask: every mask-true
pixel's nearest mask-false pixel is the single region-B pixel `(0,1)`. -/
def wit1Edt : (Pos 1 3 → Bool) → Pos 1 3 → Pos 1 3 := fun mask p =>
  if mask p then (0, 1) else p

/-- A 1×1 raster consisting solely of the target color: its barrier mask is
all-true, so the distance transform has no valid source (the C7
counterexample input). -/
def allRed : Raster 1 1 := fun _ _ => red

/-- The 4×4 raster of the spec's example: the 2×2 block at rows 0-1,
columns 0-1 is red (region A, the target), everything else blue
(Background). -/
def c2img : Raster 4 4 := fun y x =>
  if y.val < 2 ∧ x.val < 2 then red else blue

/-- Channel read `c[i]` of a pixel. -/
def Color.chan (c : Color) : Fin 4 → ℕ
  | ⟨0, _⟩ => c.c0
  | ⟨1, _⟩ => c.c1
  | ⟨2, _⟩ => c.c2
  | ⟨3, _⟩ => c.c3

/-- Channel write `c[i] = v` of a pixel. -/
def Color.setChan (c : Color) : Fin 4 → ℕ → Color
  | ⟨0, _⟩, v => ⟨v, c.c1, c.c2, c.c3⟩
  | ⟨1, _⟩, v => ⟨c.c0, v, c.c2, c.c3⟩
  | ⟨2, _⟩, v => ⟨c.c0, c.c1, v, c.c3⟩
  | ⟨3, _⟩, v => ⟨c.c0, c.c1, c.c2, v⟩

/-- The mutable store of a `country_borders` call body: the ambient input
array `maparray` and the local array `edtvals` created by the fancy-indexing
read (`numpy` fancy indexing copies) and then mutated in place by the
channel loop. -/
structure PyState (h w : ℕ) where
  maparray : Raster h w
  edtvals : Raster h w

/-- One iteration of `for i in range(edtvals.shape[-1]): edtvals[...,i] *= cmask`
as a store update: channel `i` of every `edtvals` pixel is multiplied by the
mask value; `maparray` is untouched. -/
def channelStep (cmask : Pos h w → Bool) (i : Fin 4) (s : PyState h w) :
    PyState h w :=
  { s with
    edtvals := fun y x =>
      (s.edtvals y x).setChan i ((s.edtvals y x).chan i * (cmask (y, x)).toNat) }

/-- The body of `country_borders` after the palette lookup, as explicit state
passing: build the local copy, then run the four channel-masking iterations. -/
def runBody (img : Raster h w) (tc bg ig : Color)
    (edt : (Pos h w → Bool) → Pos h w → Pos h w) : PyState h w :=
  let cmask := mask_by_color img tc
  let ind := edt (edtmaskOf img tc bg ig)
  let s0 : PyState h w := { maparray := img, edtvals := edtvalsOf img ind }
  (([0, 1, 2, 3] : List (Fin 4)).foldl (fun s i => channelStep cmask i s) s0)

/-! ## Definitions: `ignoring_extra_args` (src/utils.py, lines 71-119) -/

/-- Python parameter kinds as distinguished by `inspect.signature`. -/
inductive PKind where
  | posOnly
  | posOrKw
  | varPos
  | kwOnly
  | varKw
  deriving DecidableEq, Repr

/-- One declared parameter of a Python function: its name and kind. -/
structure Param where
  name : String
  kind : PKind
  deriving DecidableEq, Repr

/-- A Python callable as seen by the decorators: a plain function carrying
its signature's parameter list, or a `functools.wraps` wrapper exposing
`__wrapped__` (which `number_of_args`/`all_keyword_args` look inside). -/
inductive PyFunc where
  | base : List Param → PyFunc
  | wrapped : PyFunc → PyFunc
  deriving DecidableEq, Repr

/-- `number_of_args(fn)`: `None` if the signature has a `VAR_POSITIONAL`
parameter, else the count of `POSITIONAL_ONLY` and `POSITIONAL_OR_KEYWORD`
parameters; unwraps decorated functions. -/
def number_of_args : PyFunc → Option ℕ
  | .wrapped f => number_of_args f
  | .base ps =>
    if ps.any (fun p => p.kind == .varPos) then none
    else some (ps.countP (fun p => p.kind == .posOnly || p.kind == .posOrKw))

/-- `all_keyword_args(fn)`: `None` if the signature has a `VAR_KEYWORD`
parameter, else the names of the `KEYWORD_ONLY` and `POSITIONAL_OR_KEYWORD`
parameters; unwraps decorated functions. -/
def all_keyword_args : PyFunc → Option (List String)
  | .wrapped f => all_keyword_args f
  | .base ps =>
    if ps.any (fun p => p.kind == .varKw) then none
    else some ((ps.filter
        (fun p => p.kind == .kwOnly || p.kind == .posOrKw)).map
        (fun p => p.name))

/-- The arguments `ignoring_extra_args(fn)(*args, **kwargs)` actually
forwards to `fn`:
`fn(*args[0:n], **keyfilter(lambda k: kwa is None or k in kwa, kwargs))`
(`args[0:None]` is the whole tuple). -/
def ignoring_extra_args_call (f : PyFunc) (args : List α)
    (kwargs : List (String × α)) : List α × List (String × α) :=
  let n := number_of_args f
  let kwa := all_keyword_args f
  (match n with
   | none => args
   | some n => args.take n,
   kwargs.filter (fun kv =>
     match kwa with
     | none => true
     | some l => l.contains kv.1))

/-! ## Definitions: `update_sequence` (src/utils.py, lines 225-231) -/

/-- The `IndexError` raised by `update_sequence`. -/
inductive PyErr where
  | indexError
  deriving DecidableEq, Repr

/-- Normalize one bound of a Python slice `t[a:b]` (step 1) to an absolute
position clamped to `[0, len]`; `none` is an omitted bound with default
`dflt`. -/
def sliceBound (len : ℕ) (v : Option ℤ) (dflt : ℕ) : ℕ :=
  match v with
  | none => dflt
  | some i =>
    let j : ℤ := if i < 0 then i + len else i
    (max 0 (min j len)).toNat

/-- Python slice `t[a:b]` with step 1. -/
def pySlice (t : List α) (a b : Option ℤ) : List α :=
  (t.take (sliceBound t.length b t.length)).drop (sliceBound t.length a 0)

/-- `update_sequence(s, n, x)`: a tuple copy of `s` with the `n`-th element
(Python indexing, negative allowed) replaced by `x`, or `IndexError` when
`n` is out of range.  Mirrors
`t[0:n] + (x,) + t[n+1:0 if n == -1 else None]`. -/
def update_sequence (s : List α) (n : ℤ) (x : α) : Except PyErr (List α) :=
  let t := s
  if -(t.length : ℤ) ≤ n ∧ n < (t.length : ℤ) then
    .ok (pySlice t (some 0) (some n) ++ [x] ++
      pySlice t (some (n + 1)) (if n = -1 then some 0 else none))
  else
    .error .indexError

/-- The Python-normalized absolute index for `s[n]`. -/
def pyIndex (s : List α) (n : ℤ) : ℕ :=
  (if n < 0 then n + s.length else n).toNat

/-! ## Theorems -/

/-- If every call fails, a bounded run with `max_retries = n ≥ 1` re-raises the
exception of the `n`-th call after exactly `n` calls. -/
lemma retryFrom_always_exc (results : ℕ → Outcome α ε) (es : ℕ → ε)
    (hres : ∀ k, results k = .exc (es k)) (nowAfter : ℕ → ℕ) (dtMax : ℕ)
    (hnow : ∀ k, nowAfter k ≤ dtMax) (n : ℕ) :
    ∀ fuel i, i < n → n ≤ i + fuel →
      retryFrom results (some n) nowAfter dtMax i fuel =
        some (.exn (es (n - 1)), n) := by
  intro fuel
  induction fuel with
  | zero => intro i hi hle; omega
  | succ fuel ih =>
    intro i hi hle
    have hdone : loopDone (some n) i = false := by
      simp [loopDone]; omega
    by_cases hlast : n = i + 1
    · subst hlast
      simp [retryFrom, hdone, hres i]
    · have h2 : ¬ (nowAfter i > dtMax) := not_lt.mpr (hnow i)
      rw [retryFrom]
      simp only [hdone, Bool.false_eq_true, if_false, hres i]
      rw [if_neg (by simpa using hlast), if_neg h2]
      exact ih (i + 1) (by omega) (by omega)

/-- If the first calls fail and the call at index `j` succeeds (with `j`
inside the bound), the run returns that success value after `j + 1` calls. -/
lemma retryFrom_first_success (results : ℕ → Outcome α ε) (nowAfter : ℕ → ℕ)
    (dtMax : ℕ) (hnow : ∀ k, nowAfter k ≤ dtMax) (n j : ℕ) (v : α)
    (hj : j < n) (hsucc : results j = .success v)
    (hfail : ∀ k < j, ∃ e, results k = .exc e) :
    ∀ fuel i, i ≤ j → j < i + fuel →
      retryFrom results (some n) nowAfter dtMax i fuel = some (.value v, j + 1) := by
  intro fuel
  induction fuel with
  | zero => intro i hij hlt; omega
  | succ fuel ih =>
    intro i hij hlt
    have hdone : loopDone (some n) i = false := by
      simp [loopDone]; omega
    rcases eq_or_lt_of_le hij with heq | hlt2
    · subst heq
      simp [retryFrom, hdone, hsucc]
    · obtain ⟨e, he⟩ := hfail i hlt2
      have h2 : ¬ (nowAfter i > dtMax) := not_lt.mpr (hnow i)
      rw [retryFrom]
      simp only [hdone, Bool.false_eq_true, if_false, he]
      rw [if_neg (by simp; omega), if_neg h2]
      exact ih (i + 1) (by omega) (by omega)

/-- C3 counterexample: with `max_retries = 1` and a function that always
raises, the wrapper re-raises after exactly 1 call, not `1 + 1 = 2` calls as
the claim asserts (the `max_retries` argument bounds the *total* number of
calls, not the number of retries). -/
theorem withRetries_total_calls_cex :
    withRetriesRun (fun _ => (Outcome.exc () : Outcome Unit Unit)) (some 1) none 0
        (fun _ => 0) 1000 5 = some (.exn (), 1) ∧
      ((RetryResult.exn (), 1) : RetryResult Unit Unit × ℕ) ≠ (.exn (), 1 + 1) := by
  exact ⟨rfl, by decide⟩

/-- C3 (amended): a function that raises on its first two calls and succeeds
on the third, run with `max_retries = 3`, returns the success value after
exactly 3 total calls (2 retries); a function that always raises, run with
`max_retries = n ≥ 1`, has the exception of its `n`-th call re-raised after
exactly `n` total calls (not `n + 1`). -/
theorem withRetries_calls (results : ℕ → Outcome α ε) (maxDuration : Option ℕ)
    (now0 : ℕ) (nowAfter : ℕ → ℕ) (dtMax : ℕ)
    (hnow : ∀ k, nowAfter k ≤ dtMax) :
    (∀ e0 e1 v, results 0 = .exc e0 → results 1 = .exc e1 →
       results 2 = .success v → ∀ fuel, 3 ≤ fuel →
         withRetriesRun results (some 3) maxDuration now0 nowAfter dtMax fuel =
           some (.value v, 3)) ∧
    (∀ es : ℕ → ε, (∀ k, results k = .exc (es k)) → ∀ n, 1 ≤ n →
       ∀ fuel, n ≤ fuel →
         withRetriesRun results (some n) maxDuration now0 nowAfter dtMax fuel =
           some (.exn (es (n - 1)), n)) := by
  constructor
  · intro e0 e1 v h0 h1 h2 fuel hfuel
    have hfail : ∀ k < 2, ∃ e, results k = Outcome.exc e := by
      intro k hk
      interval_cases k
      exacts [⟨e0, h0⟩, ⟨e1, h1⟩]
    have := retryFrom_first_success results nowAfter dtMax hnow 3 2 v
      (by omega) h2 hfail fuel 0 (by omega) (by omega)
    simpa [withRetriesRun] using this
  · intro es hres n hn fuel hfuel
    have := retryFrom_always_exc results es hres nowAfter dtMax hnow n fuel 0
      (by omega) (by omega)
    simpa [withRetriesRun] using this

/-- Witness for the amended C3 theorem at concrete inputs. -/
theorem withRetries_calls_witness :
    withRetriesRun
        (fun k => if k < 2 then (Outcome.exc () : Outcome ℕ Unit) else .success 42)
        (some 3) none 0 (fun _ => 5) 10 3 = some (.value 42, 3) ∧
      withRetriesRun (fun _ => (Outcome.exc () : Outcome Unit Unit)) (some 2) none 0
        (fun _ => 5) 10 4 = some (.exn (), 2) :=
  ⟨(withRetries_calls _ none 0 _ 10 (fun _ => by decide)).1 () () 42
      rfl rfl rfl 3 (by decide),
   (withRetries_calls _ none 0 _ 10 (fun _ => by decide)).2 (fun _ => ())
      (fun _ => rfl) 2 (by decide) 4 (by decide)⟩

/-- C4: the `max_duration` argument is dead.  The loop guard compares
`datetime.datetime.now()` against `datetime.datetime.max` (always false,
since `now() ≤ datetime.max`) instead of against the computed `end_time`, so
with `max_retries = None` an always-failing function is retried forever: for
every fuel bound the run is still looping, no matter what `max_duration` is
and no matter how much wall-clock time has elapsed.  The claim (re-raise once
elapsed time exceeds `max_duration`) describes the evident intent of the dead
`end_time` variable; the code never stops. -/
theorem withRetries_maxDuration_ignored (results : ℕ → Outcome α ε) (es : ℕ → ε)
    (hres : ∀ k, results k = .exc (es k)) (maxDuration : Option ℕ) (now0 : ℕ)
    (nowAfter : ℕ → ℕ) (dtMax : ℕ) (hnow : ∀ k, nowAfter k ≤ dtMax) (fuel : ℕ) :
    withRetriesRun results none maxDuration now0 nowAfter dtMax fuel = none := by
  suffices h : ∀ fuel i, retryFrom results none nowAfter dtMax i fuel = none by
    simpa [withRetriesRun] using h fuel 0
  intro fuel
  induction fuel with
  | zero => intro i; rfl
  | succ fuel ih =>
    intro i
    have h2 : ¬ (nowAfter i > dtMax) := not_lt.mpr (hnow i)
    rw [retryFrom]
    simp only [loopDone, Bool.false_eq_true, if_false, hres i]
    rw [if_neg (by simp), if_neg h2]
    exact ih (i + 1)

/-- Witness for the C4 theorem: an always-failing call with
`max_duration = 1` and unbounded retries is still looping after 50
iterations even though the clock has long passed the deadline. -/
theorem withRetries_maxDuration_ignored_witness :
    withRetriesRun (fun _ => (Outcome.exc () : Outcome Unit Unit)) none (some 1) 0
        (fun k => min k 1000) 1000 50 = none :=
  withRetries_maxDuration_ignored (fun _ => Outcome.exc ()) (fun _ => ())
    (fun _ => rfl) (some 1) 0 (fun k => min k 1000) 1000
    (fun k => min_le_right k 1000) 50

lemma mask_by_color_eq_true_iff (img : Raster h w) (c : Color) (p : Pos h w) :
    mask_by_color img c p = true ↔ img p.1 p.2 = c := by
  simp only [mask_by_color, Bool.and_eq_true, beq_iff_eq]
  constructor
  · rintro ⟨⟨⟨h0, h1⟩, h2⟩, h3⟩
    cases hI : img p.1 p.2
    cases c
    simp_all
  · rintro h
    simp [h]

lemma mask_by_color_eq_false_iff (img : Raster h w) (c : Color) (p : Pos h w) :
    mask_by_color img c p = false ↔ img p.1 p.2 ≠ c := by
  simp only [ne_eq, ← mask_by_color_eq_true_iff img c p]
  cases mask_by_color img c p <;> simp

lemma Color.mulBool_true (c : Color) : c.mulBool true = c := by
  cases c
  simp [Color.mulBool]

lemma Color.mulBool_false (c : Color) : c.mulBool false = zeroColor := by
  cases c
  simp [Color.mulBool, zeroColor]

/-- Successful path of `country_borders`. -/
lemma country_borders_ok (names : List String) (palette : List Color)
    (bg ig : Color) (img : Raster h w) (edt) (country : String) (i : ℕ)
    (tc : Color) (hidx : names.indexOf? country = some i)
    (hpal : palette[i]? = some tc) :
    country_borders names palette bg ig img edt country =
      .ok (borderOut img tc (edt (edtmaskOf img tc bg ig))) := by
  simp [country_borders, hidx, hpal]

/-- If the target color occupies no pixel, the masked output is all zero. -/
lemma borderOut_of_empty (img : Raster h w) (tc : Color) (ind)
    (hempty : ∀ p : Pos h w, img p.1 p.2 ≠ tc) :
    borderOut img tc ind = fun _ _ => zeroColor := by
  funext y x
  have hm : mask_by_color img tc (y, x) = false :=
    (mask_by_color_eq_false_iff img tc (y, x)).mpr (hempty (y, x))
  simp [borderOut, hm, Color.mulBool_false]

/-- C5: `country_borders` raises the unknown-region error exactly when the
target name is absent from the legend list, provided the palette is at least
as long as the name list (as in the source, where the palette is generated
with `len(names)` entries); for a present name the call never errors, and
the lookup precedes everything else, so the error is not retried. -/
theorem country_borders_unknownRegion_iff (names : List String)
    (palette : List Color) (bg ig : Color) (img : Raster h w) (edt)
    (country : String) (hlen : names.length ≤ palette.length) :
    country_borders names palette bg ig img edt country =
        .error .unknownRegion ↔ country ∉ names := by
  constructor
  · intro herr hmem
    obtain ⟨i, hsome⟩ : ∃ i, names.indexOf? country = some i := by
      cases hidx : names.indexOf? country with
      | some i => exact ⟨i, rfl⟩
      | none =>
        rw [List.indexOf?_eq_none_iff] at hidx
        exact absurd (by simp) (hidx country hmem)
    have hi : i < names.length :=
      (List.findIdx?_eq_some_iff_findIdx_eq.mp hsome).1
    cases hpal : palette[i]? with
    | none =>
      rw [List.getElem?_eq_none_iff] at hpal
      omega
    | some tc =>
      rw [country_borders_ok names palette bg ig img edt country i tc hsome
        hpal] at herr
      exact Except.noConfusion herr
  · intro hnmem
    have hidx : names.indexOf? country = none := by
      rw [List.indexOf?_eq_none_iff]
      intro x hx
      simp only [beq_iff_eq]
      rintro rfl
      exact hnmem hx
    simp [country_borders, hidx]

/-- Witness for the C5 theorem: with legend `["A"]` and palette `[red]`,
querying `"B"` errors and querying `"A"` does not. -/
theorem country_borders_unknownRegion_iff_witness :
    (country_borders ["A"] [red] blue grey (fun _ _ => blue : Raster 1 1)
        (idEdt 1 1) "B" = .error .unknownRegion ↔ "B" ∉ ["A"]) ∧
    (country_borders ["A"] [red] blue grey (fun _ _ => blue : Raster 1 1)
        (idEdt 1 1) "A" = .error .unknownRegion ↔ "A" ∉ ["A"]) :=
  ⟨country_borders_unknownRegion_iff ["A"] [red] blue grey _ (idEdt 1 1) "B"
      (by decide),
   country_borders_unknownRegion_iff ["A"] [red] blue grey _ (idEdt 1 1) "A"
      (by decide)⟩

/-- C1: on a raster whose pixels are exactly background plus two regions of
colors `ca` (the target) and `cb`, with no ignore-colored pixel, the output
colors every target pixel with `cb` and every other pixel with zero —
for every index choice the distance-transform library can make. -/
theorem country_borders_two_regions (names : List String)
    (palette : List Color) (bg ig ca cb : Color) (img : Raster h w) (edt)
    (country : String) (i : ℕ) (hidx : names.indexOf? country = some i)
    (hpal : palette[i]? = some ca)
    (hpart : ∀ p : Pos h w, img p.1 p.2 = bg ∨ img p.1 p.2 = ca ∨
      img p.1 p.2 = cb)
    (hA : ∃ p : Pos h w, img p.1 p.2 = ca)
    (hB : ∃ p : Pos h w, img p.1 p.2 = cb)
    (hab : ca ≠ cb) (hbbg : cb ≠ bg) (hbig : cb ≠ ig)
    (hedt : edtSpec (edtmaskOf img ca bg ig) (edt (edtmaskOf img ca bg ig))) :
    country_borders names palette bg ig img edt country =
      .ok (fun y x => if img y x = ca then cb else zeroColor) := by
  rw [country_borders_ok names palette bg ig img edt country i ca hidx hpal]
  refine congrArg Except.ok ?_
  funext y x
  by_cases hmem : img y x = ca
  · have hcm : mask_by_color img ca (y, x) = true :=
      (mask_by_color_eq_true_iff img ca (y, x)).mpr hmem
    have hm : edtmaskOf img ca bg ig (y, x) = true := by
      simp [edtmaskOf, hcm]
    obtain ⟨hfalse, -⟩ := (hedt (y, x)).2 hm
    set q := edt (edtmaskOf img ca bg ig) (y, x) with hq
    simp only [edtmaskOf, Bool.or_eq_false_iff, mask_by_color_eq_false_iff]
      at hfalse
    obtain ⟨⟨hnca, hnbg⟩, hnig⟩ := hfalse
    have hqb : img q.1 q.2 = cb := by
      rcases hpart q with hh | hh | hh
      · exact absurd hh hnbg
      · exact absurd hh hnca
      · exact hh
    simp [borderOut, edtvalsOf, hcm, Color.mulBool_true, hmem, ← hq, hqb]
  · have hcm : mask_by_color img ca (y, x) = false :=
      (mask_by_color_eq_false_iff img ca (y, x)).mpr hmem
    simp [borderOut, hcm, Color.mulBool_false, hmem]

/-- Witness for the C1 theorem on the 1×3 raster `[red, green, blue]` with
target `"A"` (red): the output is `[green, zero, zero]`. -/
theorem country_borders_two_regions_witness :
    country_borders ["A", "B"] [red, green] blue grey wit1Img wit1Edt "A" =
      .ok (fun y x => if wit1Img y x = red then green else zeroColor) :=
  country_borders_two_regions ["A", "B"] [red, green] blue grey red green
    wit1Img wit1Edt "A" 0 (by decide) rfl (by decide) (by decide) (by decide)
    (by decide) (by decide) (by decide) (by decide)

/-- C6: if the target country is present in the legend but its color occupies
no pixel of the raster, the call returns the all-zero raster of the input's
dimensions without erroring, whatever the distance transform returns. -/
theorem country_borders_empty_mask (names : List String)
    (palette : List Color) (bg ig tc : Color) (img : Raster h w) (edt)
    (country : String) (i : ℕ) (hidx : names.indexOf? country = some i)
    (hpal : palette[i]? = some tc)
    (hempty : ∀ p : Pos h w, img p.1 p.2 ≠ tc) :
    country_borders names palette bg ig img edt country =
      .ok (fun _ _ => zeroColor) := by
  rw [country_borders_ok names palette bg ig img edt country i tc hidx hpal]
  exact congrArg Except.ok (borderOut_of_empty img tc _ hempty)

/-- Witness for the C6 theorem: `"A"` (red) is in the legend but the 1×1
raster is all blue. -/
theorem country_borders_empty_mask_witness :
    country_borders ["A"] [red] blue grey (fun _ _ => blue : Raster 1 1)
      (idEdt 1 1) "A" = .ok (fun _ _ => zeroColor) :=
  country_borders_empty_mask ["A"] [red] blue grey red
    (fun _ _ => blue : Raster 1 1) (idEdt 1 1) "A" 0 (by decide) rfl
    (by decide)

/-- C2 counterexample: on the spec's 4×4 example (2×2 red block on blue
background, target the red region) the result is not the all-zero raster,
no matter which (in-bounds) index arrays the distance transform returns:
every propagated pixel is read from the input raster, whose pixels are all
non-zero. -/
theorem c2_all_zero_cex :
    (∀ edt : (Pos 4 4 → Bool) → Pos 4 4 → Pos 4 4,
        country_borders ["A"] [red] blue grey c2img edt "A" =
          .ok (fun _ _ => zeroColor)) = False := by
  apply eq_false
  intro hcl
  have h := hcl (idEdt 4 4)
  rw [country_borders_ok ["A"] [red] blue grey c2img (idEdt 4 4) "A" 0 red
    (by decide) rfl] at h
  have h2 := congrFun (congrFun (Except.ok.inj h) 0) 0
  exact absurd h2 (by decide)

/-- C2 (amended): on the 4×4 example the call succeeds and returns the
masked propagation raster, but the 2×2 target block is *not* background/zero:
each of its pixels holds the input color (red or blue) found at whatever
index the library returned, hence is non-zero; only the pixels outside the
block are zero.  There is no valid propagation source, so the block's
contents are implementation-defined — but never zero. -/
theorem c2_block_not_zero (edt : (Pos 4 4 → Bool) → Pos 4 4 → Pos 4 4) :
    country_borders ["A"] [red] blue grey c2img edt "A" =
      .ok (borderOut c2img red (edt (edtmaskOf c2img red blue grey))) ∧
    ∀ p : Pos 4 4, p.1.val < 2 → p.2.val < 2 →
      borderOut c2img red (edt (edtmaskOf c2img red blue grey)) p.1 p.2 ≠
        zeroColor := by
  constructor
  · exact country_borders_ok ["A"] [red] blue grey c2img edt "A" 0 red
      (by decide) rfl
  · intro p h1 h2 hz
    set ind := edt (edtmaskOf c2img red blue grey) with hind
    have hmem : c2img p.1 p.2 = red := by
      simp [c2img, h1, h2]
    have hcm : mask_by_color c2img red p = true :=
      (mask_by_color_eq_true_iff c2img red p).mpr hmem
    have hval : ∀ q : Pos 4 4, c2img q.1 q.2 = red ∨ c2img q.1 q.2 = blue := by
      decide
    simp only [borderOut, edtvalsOf, hcm, Color.mulBool_true] at hz
    rcases hval (ind (p.1, p.2)) with hq | hq <;> rw [hq] at hz <;>
      exact absurd hz (by decide)

/-- Witness for the amended C2 theorem with a concrete index choice: the
call succeeds and pixel `(0,0)` of the output is non-zero. -/
theorem c2_block_not_zero_witness :
    country_borders ["A"] [red] blue grey c2img (idEdt 4 4) "A" =
      .ok (borderOut c2img red (idEdt 4 4 (edtmaskOf c2img red blue grey))) ∧
    borderOut c2img red (idEdt 4 4 (edtmaskOf c2img red blue grey)) 0 0 ≠
      zeroColor :=
  ⟨(c2_block_not_zero (idEdt 4 4)).1,
   (c2_block_not_zero (idEdt 4 4)).2 (0, 0) (by decide) (by decide)⟩

/-- C7 counterexample: on a 1×1 raster holding only the target color the
barrier mask is all-true, the distance transform has no valid source, and —
for every pair of in-bounds index oracles — the first call reproduces the
target color and the second call reproduces it again: the re-application is
not the all-zero raster, refuting the claim's unrestricted "for every valid
raster" quantification. -/
theorem country_borders_reapply_cex :
    (∀ edt edt2 : (Pos 1 1 → Bool) → Pos 1 1 → Pos 1 1, ∀ out1,
        country_borders ["A"] [red] blue grey allRed edt "A" = .ok out1 →
          country_borders ["A"] [red] blue grey out1 edt2 "A" =
            .ok (fun _ _ => zeroColor)) = False := by
  apply eq_false
  intro hcl
  have h1 : country_borders ["A"] [red] blue grey allRed (idEdt 1 1) "A" =
      .ok (borderOut allRed red (idEdt 1 1 (edtmaskOf allRed red blue grey))) :=
    country_borders_ok ["A"] [red] blue grey allRed (idEdt 1 1) "A" 0 red
      (by decide) rfl
  have h2 := hcl (idEdt 1 1) (idEdt 1 1) _ h1
  rw [country_borders_ok ["A"] [red] blue grey
      (borderOut allRed red (idEdt 1 1 (edtmaskOf allRed red blue grey)))
      (idEdt 1 1) "A" 0 red (by decide) rfl] at h2
  have h3 := congrFun (congrFun (Except.ok.inj h2) 0) 0
  exact absurd h3 (by decide)

/-- C7 (amended): re-applying `country_borders` with the same target to its
own output yields the all-zero raster, *provided* the first call's barrier
mask has a false pixel — i.e. some pixel belongs to a region other than the
target, background and ignore, so the distance-transform contract `edtSpec`
is satisfiable (on an input whose pixels are all target/background/ignore
the first output reproduces the target color and the property fails, see the
counterexample).  Then the first output colors target pixels only with
colors of mask-false pixels (never the target color) and everything else
with zero, so the second application's target mask is empty.  This also
needs the target color to be non-zero (true in the source: palette colors
have alpha 255); the second call's index arrays are arbitrary. -/
theorem country_borders_reapply (names : List String) (palette : List Color)
    (bg ig tc : Color) (img : Raster h w) (edt edt2) (country : String)
    (i : ℕ) (hidx : names.indexOf? country = some i)
    (hpal : palette[i]? = some tc) (htc : tc ≠ zeroColor)
    (hedt : edtSpec (edtmaskOf img tc bg ig) (edt (edtmaskOf img tc bg ig))) :
    country_borders names palette bg ig img edt country =
      .ok (borderOut img tc (edt (edtmaskOf img tc bg ig))) ∧
    country_borders names palette bg ig
        (borderOut img tc (edt (edtmaskOf img tc bg ig))) edt2 country =
      .ok (fun _ _ => zeroColor) := by
  set ind := edt (edtmaskOf img tc bg ig) with hind
  refine ⟨country_borders_ok names palette bg ig img edt country i tc hidx
    hpal, ?_⟩
  have hempty : ∀ p : Pos h w, borderOut img tc ind p.1 p.2 ≠ tc := by
    intro p
    by_cases hcm : mask_by_color img tc p = true
    · have hm : edtmaskOf img tc bg ig p = true := by
        simp [edtmaskOf, hcm]
      obtain ⟨hfalse, -⟩ := (hedt p).2 hm
      have hmf : mask_by_color img tc (ind p) = false := by
        simp only [edtmaskOf, Bool.or_eq_false_iff] at hfalse
        exact hfalse.1.1
      have hne := (mask_by_color_eq_false_iff img tc (ind p)).mp hmf
      simpa [borderOut, edtvalsOf, hcm, Color.mulBool_true] using hne
    · have hcm' : mask_by_color img tc p = false := by
        simpa using hcm
      simp only [borderOut, edtvalsOf, hcm', Color.mulBool_false]
      exact Ne.symm htc
  rw [country_borders_ok names palette bg ig (borderOut img tc ind) edt2
    country i tc hidx hpal]
  exact congrArg Except.ok (borderOut_of_empty _ tc _ hempty)

/-- Witness for the C7 theorem on the 1×3 raster `[red, green, blue]`. -/
theorem country_borders_reapply_witness :
    country_borders ["A", "B"] [red, green] blue grey wit1Img wit1Edt "A" =
      .ok (borderOut wit1Img red (wit1Edt (edtmaskOf wit1Img red blue grey))) ∧
    country_borders ["A", "B"] [red, green] blue grey
        (borderOut wit1Img red (wit1Edt (edtmaskOf wit1Img red blue grey)))
        (idEdt 1 3) "A" =
      .ok (fun _ _ => zeroColor) :=
  country_borders_reapply ["A", "B"] [red, green] blue grey red wit1Img
    wit1Edt (idEdt 1 3) "A" 0 (by decide) rfl (by decide) (by decide)

lemma foldl_channelStep_maparray (cmask : Pos h w → Bool) :
    ∀ (l : List (Fin 4)) (s : PyState h w),
      (l.foldl (fun s i => channelStep cmask i s) s).maparray = s.maparray := by
  intro l
  induction l with
  | nil => intro s; rfl
  | cons a l ih =>
    intro s
    rw [List.foldl_cons, ih]
    rfl

lemma foldl_channelStep_edtvals (cmask : Pos h w → Bool) :
    ∀ (l : List (Fin 4)) (s : PyState h w) (y : Fin h) (x : Fin w),
      (l.foldl (fun s i => channelStep cmask i s) s).edtvals y x =
        l.foldl (fun d i => d.setChan i (d.chan i * (cmask (y, x)).toNat))
          (s.edtvals y x) := by
  intro l
  induction l with
  | nil => intro s y x; rfl
  | cons a l ih =>
    intro s y x
    rw [List.foldl_cons, List.foldl_cons, ih]
    rfl

/-- Running the four channel iterations over one pixel multiplies all four
channels by the mask bit. -/
lemma setChan_chain (c : Color) (b : Bool) :
    ([0, 1, 2, 3] : List (Fin 4)).foldl
        (fun d i => d.setChan i (d.chan i * b.toNat)) c = c.mulBool b := by
  cases c
  cases b <;> rfl

/-- C9: the call body, run as explicit state passing over the store holding
the input array and the local copy, leaves the input array unchanged, and
the call's result is exactly the final value of the local copy — a function
of the inputs alone (so two calls on identical inputs return identical
rasters). -/
theorem country_borders_frame_pure (names : List String)
    (palette : List Color) (bg ig tc : Color) (img : Raster h w) (edt)
    (country : String) (i : ℕ) (hidx : names.indexOf? country = some i)
    (hpal : palette[i]? = some tc) :
    (runBody img tc bg ig edt).maparray = img ∧
    country_borders names palette bg ig img edt country =
      .ok ((runBody img tc bg ig edt).edtvals) := by
  have hmap : (runBody img tc bg ig edt).maparray = img :=
    foldl_channelStep_maparray (mask_by_color img tc) _ _
  have hedtv : (runBody img tc bg ig edt).edtvals =
      borderOut img tc (edt (edtmaskOf img tc bg ig)) := by
    funext y x
    rw [show (runBody img tc bg ig edt).edtvals y x = _ from
      foldl_channelStep_edtvals (mask_by_color img tc) [0, 1, 2, 3] _ y x]
    rw [setChan_chain]
    rfl
  exact ⟨hmap, by
    rw [country_borders_ok names palette bg ig img edt country i tc hidx hpal,
      hedtv]⟩

/-- Witness for the C9 theorem on the 1×3 raster. -/
theorem country_borders_frame_pure_witness :
    (runBody wit1Img red blue grey wit1Edt).maparray = wit1Img ∧
    country_borders ["A", "B"] [red, green] blue grey wit1Img wit1Edt "A" =
      .ok ((runBody wit1Img red blue grey wit1Edt).edtvals) :=
  country_borders_frame_pure ["A", "B"] [red, green] blue grey red wit1Img
    wit1Edt "A" 0 (by decide) rfl

/-- C8 counterexample: for `def f(*args)` — variadic positional, no keyword
parameters — the wrapper still filters keyword arguments: `{"x": 0}` is
dropped, so it is not the case that all arguments pass through unfiltered as
soon as the signature has a variadic positional or keyword parameter. -/
theorem ignoring_extra_args_variadic_cex :
    ignoring_extra_args_call (.base [⟨"args", .varPos⟩]) ([] : List ℕ)
        [("x", 0)] = ([], []) ∧
      (([], []) : List ℕ × List (String × ℕ)) ≠ ([], [("x", 0)]) :=
  ⟨rfl, by decide⟩

/-- C8 (amended): with no variadic parameter in the signature, the wrapper
forwards exactly the first `n` positional arguments (`n` = number of
positional parameters, so excess positional arguments are dropped and no
arity `TypeError` can arise) and only the keyword arguments whose names the
signature declares.  A variadic *positional* parameter lets every positional
argument through, and a variadic *keyword* parameter lets every keyword
argument through — each variadic unfilters only its own kind of argument. -/
theorem ignoring_extra_args_spec (ps : List Param) (args : List α)
    (kwargs : List (String × α)) :
    ((¬ ∃ p ∈ ps, p.kind = .varPos) → (¬ ∃ p ∈ ps, p.kind = .varKw) →
      ignoring_extra_args_call (.base ps) args kwargs =
        (args.take
          (ps.countP fun p => p.kind == .posOnly || p.kind == .posOrKw),
         kwargs.filter fun kv =>
           ((ps.filter fun p => p.kind == .kwOnly || p.kind == .posOrKw).map
             fun p => p.name).contains kv.1)) ∧
    ((∃ p ∈ ps, p.kind = .varPos) →
      (ignoring_extra_args_call (.base ps) args kwargs).1 = args) ∧
    ((∃ p ∈ ps, p.kind = .varKw) →
      (ignoring_extra_args_call (.base ps) args kwargs).2 = kwargs) := by
  refine ⟨?_, ?_, ?_⟩
  · intro hvp hvk
    have h1 : ps.any (fun p => p.kind == PKind.varPos) = false := by
      rw [List.any_eq_false]
      intro p hp
      simpa using fun hk => hvp ⟨p, hp, hk⟩
    have h2 : ps.any (fun p => p.kind == PKind.varKw) = false := by
      rw [List.any_eq_false]
      intro p hp
      simpa using fun hk => hvk ⟨p, hp, hk⟩
    simp [ignoring_extra_args_call, number_of_args, all_keyword_args, h1, h2]
  · rintro ⟨p, hp, hk⟩
    have h1 : ps.any (fun p => p.kind == PKind.varPos) = true := by
      rw [List.any_eq_true]
      exact ⟨p, hp, by simp [hk]⟩
    simp [ignoring_extra_args_call, number_of_args, h1]
  · rintro ⟨p, hp, hk⟩
    have h2 : ps.any (fun p => p.kind == PKind.varKw) = true := by
      rw [List.any_eq_true]
      exact ⟨p, hp, by simp [hk]⟩
    simp [ignoring_extra_args_call, all_keyword_args, h2]

/-- Witness for the amended C8 theorem: `f(a, b)` called with four positional
arguments and keywords `{"b": 5, "z": 6}` is forwarded `(1, 2)` and
`{"b": 5}`. -/
theorem ignoring_extra_args_spec_witness :
    ignoring_extra_args_call
        (.base [⟨"a", .posOrKw⟩, ⟨"b", .posOrKw⟩]) ([1, 2, 3, 4] : List ℕ)
        [("b", 5), ("z", 6)] = ([1, 2], [("b", 5)]) :=
  ((ignoring_extra_args_spec [⟨"a", .posOrKw⟩, ⟨"b", .posOrKw⟩]
      ([1, 2, 3, 4] : List ℕ) [("b", 5), ("z", 6)]).1 (by decide)
    (by decide)).trans (by decide)

lemma pyIndex_lt_length (s : List α) (n : ℤ) (h1 : -(s.length : ℤ) ≤ n)
    (h2 : n < (s.length : ℤ)) : pyIndex s n < s.length := by
  unfold pyIndex
  rcases lt_or_le n 0 with hn | hn
  · rw [if_pos hn]
    omega
  · rw [if_neg (not_lt.mpr hn)]
    omega

/-- In range, `update_sequence` computes `List.set` at the normalized
index. -/
lemma update_sequence_eq_set (s : List α) (n : ℤ) (x : α)
    (h1 : -(s.length : ℤ) ≤ n) (h2 : n < (s.length : ℤ)) :
    update_sequence s n x = .ok (s.set (pyIndex s n) x) := by
  have hm : pyIndex s n < s.length := pyIndex_lt_length s n h1 h2
  unfold update_sequence
  rw [if_pos ⟨h1, h2⟩]
  refine congrArg Except.ok ?_
  rw [List.set_eq_take_cons_drop x hm]
  have hlo : sliceBound s.length (some (0 : ℤ)) 0 = 0 := by
    simp [sliceBound]
  have hhi : sliceBound s.length (some n) s.length = pyIndex s n := by
    simp only [sliceBound, pyIndex]
    rcases lt_or_le n 0 with hn | hn
    · rw [if_pos hn]
      rw [max_def, min_def]
      split_ifs <;> omega
    · rw [if_neg (not_lt.mpr hn)]
      rw [max_def, min_def]
      split_ifs <;> omega
  have hpiece1 : pySlice s (some 0) (some n) = s.take (pyIndex s n) := by
    rw [pySlice, hlo, hhi, List.drop_zero]
  by_cases hn1 : n = -1
  · subst hn1
    have hpy : pyIndex s (-1) = ((-1 : ℤ) + s.length).toNat := by
      simp [pyIndex]
    have hlen : s.length = pyIndex s (-1) + 1 := by
      rw [hpy] at hm ⊢
      omega
    have hpiece2 : pySlice s (some ((-1 : ℤ) + 1)) (some 0) = [] := by
      have h0 : sliceBound s.length (some (0 : ℤ)) s.length = 0 := by
        simp [sliceBound]
      simp [pySlice, h0]
    rw [if_pos rfl, hpiece1, hpiece2, List.drop_eq_nil_of_le (by omega)]
    simp
  · have hlo2 : sliceBound s.length (some (n + 1)) 0 = pyIndex s n + 1 := by
      simp only [sliceBound, pyIndex]
      rcases lt_or_le n 0 with hn | hn
      · rw [if_pos (by omega : n + 1 < 0), if_pos hn]
        rw [max_def, min_def]
        split_ifs <;> omega
      · rw [if_neg (by omega : ¬ n + 1 < 0), if_neg (not_lt.mpr hn)]
        rw [max_def, min_def]
        split_ifs <;> omega
    have hpiece2 : pySlice s (some (n + 1)) none = s.drop (pyIndex s n + 1) := by
      rw [pySlice, hlo2, sliceBound, List.take_length]
    rw [if_neg hn1, hpiece1, hpiece2]
    simp

/-- C10: for `-len(s) ≤ n < len(s)`, `update_sequence(s, n, x)` returns a
tuple of the same length whose element at the (Python-normalized) index `n`
is `x` and whose other elements are those of `s`; for `n` outside that range
it raises `IndexError`. -/
theorem update_sequence_spec (s : List α) (n : ℤ) (x : α) :
    ((-(s.length : ℤ) ≤ n ∧ n < (s.length : ℤ)) →
      ∃ l, update_sequence s n x = .ok l ∧ l.length = s.length ∧
        l[pyIndex s n]? = some x ∧
        ∀ j : ℕ, j ≠ pyIndex s n → l[j]? = s[j]?) ∧
    (¬ (-(s.length : ℤ) ≤ n ∧ n < (s.length : ℤ)) →
      update_sequence s n x = .error .indexError) := by
  constructor
  · rintro ⟨h1, h2⟩
    refine ⟨s.set (pyIndex s n) x, update_sequence_eq_set s n x h1 h2,
      by simp, ?_, ?_⟩
    · exact List.getElem?_set_eq_of_lt x (pyIndex_lt_length s n h1 h2)
    · intro j hj
      exact List.getElem?_set_ne (Ne.symm hj)
  · intro hrange
    unfold update_sequence
    rw [if_neg hrange]

/-- Witness for the C10 theorem: `update_sequence([10,20,30], -2, 7)` gives
`(10, 7, 30)` and index 5 raises `IndexError`. -/
theorem update_sequence_spec_witness :
    (∃ l, update_sequence ([10, 20, 30] : List ℕ) (-2) 7 = .ok l ∧
        l.length = 3 ∧ l[1]? = some 7 ∧
        ∀ j : ℕ, j ≠ 1 → l[j]? = ([10, 20, 30] : List ℕ)[j]?) ∧
      update_sequence ([10, 20, 30] : List ℕ) 5 7 = .error .indexError :=
  ⟨(update_sequence_spec ([10, 20, 30] : List ℕ) (-2) 7).1 (by decide),
   (update_sequence_spec ([10, 20, 30] : List ℕ) 5 7).2 (by decide)⟩

end Pudzu
